import Mathlib

/-!
# Verification of the mtg-trades-back inventory controller

Shallow embedding of `src/controllers/cardsController.js` and the batch
endpoint of `src/routes/cards.js`.  JavaScript objects become Lean
structures; DynamoDB (`GetCommand`/`PutCommand`/`DeleteCommand`) becomes a
list of cards keyed by `cardId`; the external Scryfall client
(`fetchScryfallCard`, which returns `null` on any error) becomes a function
`String → String → Option Scryfall` passed in as a parameter; `Date.now()`
becomes an explicit `now : Nat` (milliseconds).  Amounts are embedded as
`Int` (the code applies `Number(...)` to them and the routes declare them
as integers).
-/

set_option autoImplicit false

namespace MtgTrades

/-- One entry of a card's `finishes` array: `{finish, amount, notes}` as the
controller stores it (notes is always a string in stored records; a missing
posted note is stored as `""`). -/
structure FinishEntry where
  finish : String
  amount : Int
  notes : String
deriving DecidableEq, Repr

/-- The caller-submitted object for one finish.  `notes` is `Option String`;
`none` models an absent `notes` property.  JavaScript treats the empty
string as falsy in `if (posted.notes)`, which `notesTruthy` reproduces. -/
structure PendingChange where
  finish : String
  amount : Int
  notes : Option String
deriving DecidableEq, Repr

/-- The external catalog blob.  The controller only reads its `finishes`
field (`Array.isArray(scryfallData.finishes) ? scryfallData.finishes : []`);
`payload` stands for the rest of the opaque JSON. -/
structure Scryfall where
  finishes : Option (List String)
  payload : String
deriving DecidableEq, Repr

/-- A stored DynamoDB item.  `extra` models any further attributes the item
may carry beyond the four the controller writes (a DynamoDB item is an open
record). -/
structure Card where
  cardId : String
  finishes : List FinishEntry
  scryfall : Option Scryfall
  scryfall_ttl : Option Nat
  extra : List (String × String)
deriving DecidableEq, Repr

/-- The DynamoDB table: items keyed by their `CardId` attribute. -/
abbrev Store := List Card

/-- `GetCommand` on key `k`. -/
def storeGet (s : Store) (k : String) : Option Card :=
  s.find? (fun c => c.cardId == k)

/-- `PutCommand` (upsert, overwrite semantics). -/
def storePut (s : Store) (c : Card) : Store :=
  if s.any (fun d => d.cardId == c.cardId) then
    s.map (fun d => if d.cardId == c.cardId then c else d)
  else
    s ++ [c]

/-- `DeleteCommand` on key `k`. -/
def storeDelete (s : Store) (k : String) : Store :=
  s.filter (fun c => !(c.cardId == k))

/-- `SCRYFALL_TTL_HOURS * 3600 * 1000` with `SCRYFALL_TTL_HOURS = 24`. -/
def scryfallTtlMs : Nat := 24 * 3600 * 1000

/-- `String.prototype.toLowerCase()`, as a structural map over the
characters (Lean's own `String.toLower` is the same map, but its
well-founded recursion does not reduce in the kernel). -/
def toLowerStr (s : String) : String := ⟨s.data.map Char.toLower⟩

/-- `getKey(setCode, cardNumber)`. -/
def getKey (setCode cardNumber : String) : String :=
  toLowerStr setCode ++ ":" ++ cardNumber

/-- `isScryfallExpired(card)`: `!card.scryfall || !card.scryfall_ttl` are
JavaScript falsiness checks, so a ttl that is literally `0` counts as
absent; otherwise `Date.now() > card.scryfall_ttl` (strict). -/
def isScryfallExpired (card : Card) (now : Nat) : Bool :=
  match card.scryfall, card.scryfall_ttl with
  | none, _ => true
  | some _, none => true
  | some _, some t => t == 0 || decide (now > t)

/-- The condition `!card || isScryfallExpired(card)` guarding the live
Scryfall lookup in `post` (and, once a card is known to exist, in `patch`,
`getCard`). -/
def needsLiveLookup (card : Option Card) (now : Nat) : Bool :=
  match card with
  | none => true
  | some c => isScryfallExpired c now

/-- `patch`/`getCard` snapshot resolution: start from `card.scryfall` and
overwrite with a live lookup when expired. -/
def resolveSnapshotPatch (catalog : String → String → Option Scryfall)
    (now : Nat) (setCodeLower cardNumber : String) (card : Card) :
    Option Scryfall :=
  if isScryfallExpired card now then catalog setCodeLower cardNumber
  else card.scryfall

/-- `post` snapshot resolution: live lookup when the record is absent or
expired, otherwise the cached `card.scryfall`. -/
def resolveSnapshotPost (catalog : String → String → Option Scryfall)
    (now : Nat) (setCodeLower cardNumber : String) (card : Option Card) :
    Option Scryfall :=
  match card with
  | none => catalog setCodeLower cardNumber
  | some c => resolveSnapshotPatch catalog now setCodeLower cardNumber c

/-- JavaScript truthiness of a posted `notes` value: absent or `""` is
falsy. -/
def notesTruthy : Option String → Option String
  | none => none
  | some s => if s = "" then none else some s

/-- `now.toISOString().slice(0, 16).replace('T', ' ')` produces one string
per minute; the claims never inspect its shape, so the embedding renders
the minute index.  What matters and is kept: it is a function of `now`
alone. -/
def fmtDatetime (now : Nat) : String := toString (now / 60000)

/-- Notes string for a brand-new finish entry. -/
def initNotes (posted : Option String) (datetime : String) : String :=
  match notesTruthy posted with
  | none => ""
  | some n => datetime ++ " " ++ n

/-- Note appending for an existing entry: prefix a newline only when the
existing notes string is truthy (non-empty). -/
def appendNotes (existing : String) (posted : Option String)
    (datetime : String) : String :=
  match notesTruthy posted with
  | none => existing
  | some n =>
      (if existing = "" then "" else existing ++ "\n") ++
        datetime ++ " " ++ n

/-- `finishMap[name]` lookup on the insertion-ordered object. -/
def lookupFinish (m : List FinishEntry) (name : String) : Option FinishEntry :=
  m.find? (fun f => f.finish == name)

/-- `finishMap[e.finish] = e`: overwrite in place if the key exists,
append otherwise (JavaScript object insertion order). -/
def setFinish (m : List FinishEntry) (e : FinishEntry) : List FinishEntry :=
  if m.any (fun f => f.finish == e.finish) then
    m.map (fun f => if f.finish == e.finish then e else f)
  else
    m ++ [e]

/-- Building `finishMap` from `card.finishes` (`finishMap[f.finish] = {...f}`). -/
def buildFinishMap (l : List FinishEntry) : List FinishEntry :=
  l.foldl setFinish []

/-- One iteration of the `post` merge loop (`amount += Number(posted.amount)`). -/
def applyAdditive (datetime : String) (m : List FinishEntry)
    (p : PendingChange) : List FinishEntry :=
  match lookupFinish m p.finish with
  | some f =>
      setFinish m
        { f with amount := f.amount + p.amount
                 notes := appendNotes f.notes p.notes datetime }
  | none =>
      m ++ [{ finish := p.finish, amount := p.amount,
              notes := initNotes p.notes datetime }]

/-- One iteration of the `patch` merge loop (`amount = Number(posted.amount)`). -/
def applyAbsolute (datetime : String) (m : List FinishEntry)
    (p : PendingChange) : List FinishEntry :=
  match lookupFinish m p.finish with
  | some f =>
      setFinish m
        { f with amount := p.amount
                 notes := appendNotes f.notes p.notes datetime }
  | none =>
      m ++ [{ finish := p.finish, amount := p.amount,
              notes := initNotes p.notes datetime }]

/-- The full `post` merge for an existing card: build the map from the
existing finishes, then fold the posted changes over it in order. -/
def mergeAdditive (existing : List FinishEntry) (changes : List PendingChange)
    (datetime : String) : List FinishEntry :=
  changes.foldl (applyAdditive datetime) (buildFinishMap existing)

/-- The full `patch` merge (before the `amount > 0` filter). -/
def mergeAbsolute (existing : List FinishEntry) (changes : List PendingChange)
    (datetime : String) : List FinishEntry :=
  changes.foldl (applyAbsolute datetime) (buildFinishMap existing)

/-- The `post` new-card branch: `body.finishes.map(...)`, no
deduplication, no amount check. -/
def createFinishes (changes : List PendingChange) (datetime : String) :
    List FinishEntry :=
  changes.map (fun p =>
    { finish := p.finish, amount := p.amount,
      notes := initNotes p.notes datetime })

/-- The `post` validation loop: return the first posted finish that is
falsy or not in `validFinishes`.  `post` checks nothing else. -/
def firstInvalidFinish (validFinishes : List String)
    (changes : List PendingChange) : Option String :=
  (changes.find? (fun p => p.finish == "" || !(validFinishes.contains p.finish))).map
    (fun p => p.finish)

/-- Errors of the `patch` validation loop. -/
inductive PatchValidationError where
  | unknownFinish (name : String)
  | invalidAmount (name : String)
deriving DecidableEq, Repr

/-- The `patch` validation loop: per item, first the finish check, then
`!Number.isInteger(Number(amount)) || Number(amount) < 0` (on `Int`
amounts the integrality half always holds). -/
def validatePatchChanges (validFinishes : List String) :
    List PendingChange → Option PatchValidationError
  | [] => none
  | p :: rest =>
      if p.finish == "" || !(validFinishes.contains p.finish) then
        some (.unknownFinish p.finish)
      else if p.amount < 0 then
        some (.invalidAmount p.finish)
      else
        validatePatchChanges validFinishes rest

/-- `The finish "x" does not exist for card sc:cn`. -/
def finishNotExistMsg (name setCodeLower cardNumber : String) : String :=
  "The finish \"" ++ name ++ "\" does not exist for card " ++
    setCodeLower ++ ":" ++ cardNumber

/-- `Invalid amount for finish "x"`. -/
def invalidAmountMsg (name : String) : String :=
  "Invalid amount for finish \"" ++ name ++ "\""

/-- An HTTP response as the handlers produce it: `res.status(st).json(card)`,
`res.status(st).send()`, or `res.status(st).json({error})`.  `patch`'s
success `res.json(card)` carries the implicit status 200. -/
inductive Outcome where
  | jsonCard (status : Nat) (card : Card)
  | empty (status : Nat)
  | error (status : Nat) (msg : String)
deriving DecidableEq, Repr

/-- The card object `post` builds and persists: rebuilt from scratch with
exactly the four written fields (merge result when a record existed, plain
mapped finishes otherwise). -/
def postNewCard (now : Nat) (key : String) (card : Option Card)
    (changes : List PendingChange) (sd : Scryfall) : Card :=
  { cardId := key
    finishes :=
      match card with
      | some c => mergeAdditive c.finishes changes (fmtDatetime now)
      | none => createFinishes changes (fmtDatetime now)
    scryfall := some sd
    scryfall_ttl := some (now + scryfallTtlMs)
    extra := [] }

/-- The body of the `post` handler of `cardsController.js` (create or
increment) once the request body is present.  A `null` return from
`fetchScryfallCard` makes `scryfallData.finishes` throw, which the
`catch` turns into the 500 response, with nothing written. -/
def postCore (catalog : String → String → Option Scryfall) (now : Nat)
    (setCode cardNumber : String) (changes : List PendingChange)
    (s : Store) : Outcome × Store :=
  match resolveSnapshotPost catalog now (toLowerStr setCode) cardNumber
      (storeGet s (getKey setCode cardNumber)) with
  | none => (.error 500 "DynamoDB error", s)
  | some sd =>
      match firstInvalidFinish (sd.finishes.getD []) changes with
      | some name =>
          (.error 400 (finishNotExistMsg name (toLowerStr setCode) cardNumber), s)
      | none =>
          (.jsonCard 201
              (postNewCard now (getKey setCode cardNumber)
                (storeGet s (getKey setCode cardNumber)) changes sd),
            storePut s
              (postNewCard now (getKey setCode cardNumber)
                (storeGet s (getKey setCode cardNumber)) changes sd))

/-- The `post` handler: missing/empty body check, then `postCore`. -/
def post (catalog : String → String → Option Scryfall) (now : Nat)
    (setCode cardNumber : String) (body : Option (List PendingChange))
    (s : Store) : Outcome × Store :=
  match body with
  | none => (.error 400 "Missing request body", s)
  | some changes => postCore catalog now setCode cardNumber changes s

theorem post_some (catalog : String → String → Option Scryfall) (now : Nat)
    (setCode cardNumber : String) (changes : List PendingChange)
    (s : Store) :
    post catalog now setCode cardNumber (some changes) s =
      postCore catalog now setCode cardNumber changes s := rfl

/-- `updatedFinishes` of the `patch` handler: the ABSOLUTE merge result
with the non-positive-amount entries filtered out. -/
def patchUpdated (existing : List FinishEntry) (changes : List PendingChange)
    (now : Nat) : List FinishEntry :=
  (mergeAbsolute existing changes (fmtDatetime now)).filter
    (fun f => decide (0 < f.amount))

/-- The card object `patch` persists: in-place field updates on the
fetched item (its other attributes survive). -/
def patchCard2 (now : Nat) (card : Card) (changes : List PendingChange)
    (sd : Scryfall) : Card :=
  { card with finishes := patchUpdated card.finishes changes now
              scryfall := some sd
              scryfall_ttl := some (now + scryfallTtlMs) }

/-- The body of the `patch` handler of `cardsController.js` (absolute
update with zero-removes-finish and empty-deletes-record) once the
request body is present. -/
def patchCore (catalog : String → String → Option Scryfall) (now : Nat)
    (setCode cardNumber : String) (changes : List PendingChange)
    (s : Store) : Outcome × Store :=
  if changes.isEmpty then (.error 400 "finishes array required", s)
  else
    match storeGet s (getKey setCode cardNumber) with
    | none => (.error 404 "Card not found", s)
    | some card =>
        match resolveSnapshotPatch catalog now (toLowerStr setCode) cardNumber
            card with
        | none => (.error 500 "DynamoDB error", s)
        | some sd =>
            match validatePatchChanges (sd.finishes.getD []) changes with
            | some (.unknownFinish name) =>
                (.error 400
                  (finishNotExistMsg name (toLowerStr setCode) cardNumber), s)
            | some (.invalidAmount name) =>
                (.error 400 (invalidAmountMsg name), s)
            | none =>
                if (patchUpdated card.finishes changes now).isEmpty then
                  (.empty 204, storeDelete s (getKey setCode cardNumber))
                else
                  (.jsonCard 200 (patchCard2 now card changes sd),
                    storePut s (patchCard2 now card changes sd))

/-- The `patch` handler: missing/empty body check, then `patchCore`. -/
def patch (catalog : String → String → Option Scryfall) (now : Nat)
    (setCode cardNumber : String) (body : Option (List PendingChange))
    (s : Store) : Outcome × Store :=
  match body with
  | none => (.error 400 "Missing request body", s)
  | some changes => patchCore catalog now setCode cardNumber changes s

theorem patch_some (catalog : String → String → Option Scryfall) (now : Nat)
    (setCode cardNumber : String) (changes : List PendingChange)
    (s : Store) :
    patch catalog now setCode cardNumber (some changes) s =
      patchCore catalog now setCode cardNumber changes s := rfl

/-- The `getCard` handler: 404 when absent; read-triggered refresh and
write-back when expired (note: a `null` fetch result is stored as-is
here, there is no null check on this path). -/
def getCard (catalog : String → String → Option Scryfall) (now : Nat)
    (setCode cardNumber : String) (s : Store) : Outcome × Store :=
  match storeGet s (getKey setCode cardNumber) with
  | none => (.error 404 "Card not found", s)
  | some card =>
      if isScryfallExpired card now then
        let card2 : Card :=
          { card with scryfall := catalog (toLowerStr setCode) cardNumber
                      scryfall_ttl := some (now + scryfallTtlMs) }
        (.jsonCard 200 card2, storePut s card2)
      else
        (.jsonCard 200 card, s)

/-- The `deleteCard` handler. -/
def deleteCard (setCode cardNumber : String) (s : Store) : Outcome × Store :=
  match storeGet s (getKey setCode cardNumber) with
  | none => (.error 404 "Card not found", s)
  | some _ => (.empty 204, storeDelete s (getKey setCode cardNumber))

/-- One item of the `/cards/batch` operations array: `{type, setcode,
cardNumber, body}`.  `type` stays a `String` so unrecognized kinds are
representable; `body = none` models an absent `body` property (the route
substitutes `{}`, which the handlers reject as a missing body). -/
structure BatchOp where
  type : String
  setcode : String
  cardNumber : String
  body : Option (List PendingChange)
deriving DecidableEq, Repr

/-- The per-operation `result` value the batch route collects from its
mock response object, or the inline `{error: ...}` for an unknown type. -/
inductive BatchOutcome where
  | fromOp (o : Outcome)
  | unknownOp (msg : String)
deriving DecidableEq, Repr

/-- One element of the batch `results` array: `{type, setcode, cardNumber,
result}`. -/
structure BatchItem where
  type : String
  setcode : String
  cardNumber : String
  result : BatchOutcome
deriving DecidableEq, Repr

/-- The `switch (type)` dispatch of one batch operation; the mock request
forwards `setcode`/`cardNumber`/`body` to the same handlers the single
routes use.  The `default` arm records the unknown-operation error and
touches nothing. -/
def applyBatchOp (catalog : String → String → Option Scryfall) (now : Nat)
    (s : Store) (op : BatchOp) : BatchOutcome × Store :=
  if op.type == "create" then
    let r := post catalog now op.setcode op.cardNumber op.body s
    (.fromOp r.1, r.2)
  else if op.type == "update" then
    let r := patch catalog now op.setcode op.cardNumber op.body s
    (.fromOp r.1, r.2)
  else if op.type == "delete" then
    let r := deleteCard op.setcode op.cardNumber s
    (.fromOp r.1, r.2)
  else
    (.unknownOp ("Unknown operation type: " ++ op.type), s)

/-- The `for (const op of operations)` loop: thread the store through the
operations in submitted order, pushing one result per operation. -/
def processOps (catalog : String → String → Option Scryfall) (now : Nat) :
    List BatchOp → Store → List BatchItem × Store
  | [], s => ([], s)
  | op :: rest, s =>
      let r := applyBatchOp catalog now s op
      let rs := processOps catalog now rest r.2
      (⟨op.type, op.setcode, op.cardNumber, r.1⟩ :: rs.1, rs.2)

/-- The transport-level batch response. -/
inductive BatchResp where
  | results (status : Nat) (items : List BatchItem)
  | malformed (status : Nat) (msg : String)
deriving DecidableEq, Repr

/-- The `/cards/batch` route: 400 only for a missing/non-array
`operations`; otherwise the results array under the default 200 of
`res.json`. -/
def batch (catalog : String → String → Option Scryfall) (now : Nat)
    (ops : Option (List BatchOp)) (s : Store) : BatchResp × Store :=
  match ops with
  | none => (.malformed 400 "Missing or invalid operations array.", s)
  | some l =>
      let r := processOps catalog now l s
      (.results 200 r.1, r.2)

/-- Iterated `post` on one key: the successive stores of a sequence of
create/increment requests (each request's response is dropped). -/
def postMany (catalog : String → String → Option Scryfall) (now : Nat)
    (setCode cardNumber : String) (bodies : List (List PendingChange))
    (s : Store) : Store :=
  bodies.foldl (fun st b => (post catalog now setCode cardNumber (some b) st).2) s

/-! ## Store lemmas -/

theorem cardId_of_storeGet {s : Store} {k : String} {c : Card}
    (h : storeGet s k = some c) : c.cardId = k := by
  have hp := List.find?_some h
  exact eq_of_beq hp

theorem find?_map_overwrite (c : Card) :
    ∀ s : Store, s.any (fun d => d.cardId == c.cardId) = true →
      (s.map (fun d => if d.cardId == c.cardId then c else d)).find?
          (fun d => d.cardId == c.cardId) = some c
  | [], h => by simp at h
  | d :: t, h => by
      by_cases hd : (d.cardId == c.cardId) = true
      · simp [List.find?, hd]
      · have ht : t.any (fun d => d.cardId == c.cardId) = true := by
          simp only [List.any_cons, Bool.or_eq_true] at h
          rcases h with h | h
          · exact absurd h hd
          · exact h
        simp only [List.map, List.find?, hd, if_neg hd, if_false]
        simpa [List.find?, hd] using find?_map_overwrite c t ht

theorem storeGet_storePut_self (s : Store) (c : Card) :
    storeGet (storePut s c) c.cardId = some c := by
  unfold storeGet storePut
  by_cases h : s.any (fun d => d.cardId == c.cardId) = true
  · rw [if_pos h]
    exact find?_map_overwrite c s h
  · rw [if_neg h]
    have hnone : s.find? (fun d => d.cardId == c.cardId) = none := by
      rw [List.find?_eq_none]
      intro x hx hpx
      exact h (List.any_eq_true.mpr ⟨x, hx, hpx⟩)
    rw [List.find?_append, hnone]
    simp [List.find?]

theorem storeGet_storeDelete_self (s : Store) (k : String) :
    storeGet (storeDelete s k) k = none := by
  unfold storeGet storeDelete
  rw [List.find?_eq_none]
  intro x hx hpx
  have := List.of_mem_filter hx
  simp [hpx] at this

/-! ## C2: TTL staleness boundary -/

/-- The staleness condition exactly as claim C2 words it (written from the
spec for comparison with the source-derived `needsLiveLookup`): the record
is absent, its expiry field is absent, or `now` is at or past the
expiry. -/
def claimedStale (card : Option Card) (now : Nat) : Prop :=
  card = none ∨ ∃ c, card = some c ∧
    (c.scryfall_ttl = none ∨ ∃ t, c.scryfall_ttl = some t ∧ t ≤ now)

/-- C2 counterexample: a record with `catalogExpiry == now` (1000) is
stale under the claim's "now at or past the expiry", but the source's
strict `Date.now() > card.scryfall_ttl` check performs no live lookup. -/
theorem ttlBoundaryCounterexample :
    claimedStale
        (some ⟨"abc:1", [⟨"nonfoil", 1, ""⟩], some ⟨some ["nonfoil"], "sf"⟩,
          some 1000, []⟩) 1000 ∧
      needsLiveLookup
        (some ⟨"abc:1", [⟨"nonfoil", 1, ""⟩], some ⟨some ["nonfoil"], "sf"⟩,
          some 1000, []⟩) 1000 = false := by
  refine ⟨Or.inr ⟨_, rfl, Or.inr ⟨1000, rfl, le_refl 1000⟩⟩, rfl⟩

/-- C2 (amended): a live lookup happens exactly when the record is absent,
its snapshot or its expiry field is absent, the expiry is literally zero
(a JavaScript falsy value), or `now` is strictly past the expiry.  In
particular `catalogExpiry == now` (nonzero) is treated as fresh, and so is
`catalogExpiry == now + 1`. -/
theorem needsLiveLookup_iff :
    (∀ (card : Option Card) (now : Nat),
        needsLiveLookup card now = true ↔
          card = none ∨ ∃ c, card = some c ∧
            (c.scryfall = none ∨ c.scryfall_ttl = none ∨
              c.scryfall_ttl = some 0 ∨
              ∃ t, c.scryfall_ttl = some t ∧ t < now)) ∧
      (∀ (c : Card) (now : Nat), c.scryfall ≠ none →
          c.scryfall_ttl = some now → 0 < now →
          needsLiveLookup (some c) now = false) ∧
      (∀ (c : Card) (now : Nat), c.scryfall ≠ none →
          c.scryfall_ttl = some (now + 1) →
          needsLiveLookup (some c) now = false) := by
  refine ⟨?_, ?_, ?_⟩
  · intro card now
    cases card with
    | none => simp [needsLiveLookup]
    | some c =>
        obtain ⟨cid, fin, sf, ttl, ex⟩ := c
        cases sf with
        | none => simp [needsLiveLookup, isScryfallExpired]
        | some sd =>
            cases ttl with
            | none => simp [needsLiveLookup, isScryfallExpired]
            | some t =>
                simp only [needsLiveLookup, isScryfallExpired,
                  Bool.or_eq_true, beq_iff_eq, decide_eq_true_eq,
                  Option.some.injEq]
                constructor
                · rintro (h | h)
                  · exact Or.inr ⟨_, rfl, Or.inr (Or.inr (Or.inl (by simp [h])))⟩
                  · exact Or.inr ⟨_, rfl, Or.inr (Or.inr (Or.inr ⟨t, rfl, h⟩))⟩
                · rintro (h | ⟨c, hc, h⟩)
                  · exact absurd h (by simp)
                  · obtain rfl : c = ⟨cid, fin, some sd, some t, ex⟩ := hc.symm
                    rcases h with h | h | h | ⟨u, hu, hlt⟩
                    · simp at h
                    · simp at h
                    · simp only [Card.scryfall_ttl, Option.some.injEq] at h
                      exact Or.inl h
                    · simp only [Card.scryfall_ttl, Option.some.injEq] at hu
                      subst hu
                      exact Or.inr hlt
  · intro c now hsf httl hpos
    obtain ⟨cid, fin, sf, ttl, ex⟩ := c
    cases sf with
    | none => exact absurd rfl hsf
    | some sd =>
        simp only [Card.scryfall_ttl] at httl
        subst httl
        simp only [needsLiveLookup, isScryfallExpired, Bool.or_eq_false_iff]
        constructor
        · simpa using Nat.pos_iff_ne_zero.mp hpos
        · simp
  · intro c now hsf httl
    obtain ⟨cid, fin, sf, ttl, ex⟩ := c
    cases sf with
    | none => exact absurd rfl hsf
    | some sd =>
        simp only [Card.scryfall_ttl] at httl
        subst httl
        simp [needsLiveLookup, isScryfallExpired]

/-- Concrete instantiation of `needsLiveLookup_iff`: a nonzero expiry
equal to `now = 5`, and an expiry of `now + 1 = 6`, are both fresh. -/
theorem needsLiveLookup_iff_witness :
    needsLiveLookup
        (some ⟨"k:1", [], some ⟨some [], ""⟩, some 5, []⟩) 5 = false ∧
      needsLiveLookup
        (some ⟨"k:1", [], some ⟨some [], ""⟩, some 6, []⟩) 5 = false :=
  ⟨needsLiveLookup_iff.2.1 ⟨"k:1", [], some ⟨some [], ""⟩, some 5, []⟩ 5
      (by simp) rfl (by decide),
    needsLiveLookup_iff.2.2 ⟨"k:1", [], some ⟨some [], ""⟩, some 6, []⟩ 5
      (by simp) rfl⟩

/-! ## C1 and C3: missing amount validation on the create path -/

/-- C1 (code bug): `post` persists a record whose only FinishEntry has the
negative quantity -5, and persists a record with an empty finishes array —
both violating the persisted-record invariant the spec states. -/
theorem postPersistsNegativeAndEmpty :
    (post (fun _ _ => some ⟨some ["nonfoil", "foil"], "sf"⟩) 1000 "abc" "7"
        (some [⟨"nonfoil", -5, none⟩]) []).2 =
      [⟨"abc:7", [⟨"nonfoil", -5, ""⟩], some ⟨some ["nonfoil", "foil"], "sf"⟩,
        some (1000 + scryfallTtlMs), []⟩] ∧
    (post (fun _ _ => some ⟨some ["nonfoil", "foil"], "sf"⟩) 1000 "abc" "7"
        (some []) []).2 =
      [⟨"abc:7", [], some ⟨some ["nonfoil", "foil"], "sf"⟩,
        some (1000 + scryfallTtlMs), []⟩] := by
  refine ⟨by decide, by decide⟩

/-- C3 (code bug): `post` runs no amount validation at all, so a creation
with the negative amount -3 succeeds with 201 and mutates the store
instead of failing with an invalid-quantity error. -/
theorem postAcceptsNegativeAmount :
    post (fun _ _ => some ⟨some ["foil"], "p"⟩) 500 "neg" "3"
        (some [⟨"foil", -3, none⟩]) [] =
      (.jsonCard 201
          ⟨"neg:3", [⟨"foil", -3, ""⟩], some ⟨some ["foil"], "p"⟩,
            some (500 + scryfallTtlMs), []⟩,
        [⟨"neg:3", [⟨"foil", -3, ""⟩], some ⟨some ["foil"], "p"⟩,
          some (500 + scryfallTtlMs), []⟩]) := by
  decide

/-! ## C4: POST status on an existing record -/

/-- C4 (code bug): the record for the key already exists (first conjunct),
yet `post` still answers with status 201 — the source ends in an
unconditional `res.status(201)`, never the documented 200 for updates. -/
theorem postExistingRecordStill201 :
    storeGet
        [⟨"abc:1", [⟨"nonfoil", 1, ""⟩], some ⟨some ["nonfoil"], "sf"⟩,
          some 2000000000, []⟩] "abc:1" =
      some ⟨"abc:1", [⟨"nonfoil", 1, ""⟩], some ⟨some ["nonfoil"], "sf"⟩,
        some 2000000000, []⟩ ∧
    (post (fun _ _ => some ⟨some ["nonfoil"], "x"⟩) 999 "abc" "1"
        (some [⟨"nonfoil", 2, none⟩])
        [⟨"abc:1", [⟨"nonfoil", 1, ""⟩], some ⟨some ["nonfoil"], "sf"⟩,
          some 2000000000, []⟩]).1 =
      .jsonCard 201
        ⟨"abc:1", [⟨"nonfoil", 3, ""⟩], some ⟨some ["nonfoil"], "sf"⟩,
          some (999 + scryfallTtlMs), []⟩ := by
  refine ⟨by decide, by decide⟩

/-! ## C7: catalog unavailable aborts create and update -/

theorem resolveSnapshotPost_none_of_unavailable
    (catalog : String → String → Option Scryfall) (now : Nat)
    (scl cn : String) (card : Option Card)
    (hcat : catalog scl cn = none)
    (hlook : needsLiveLookup card now = true) :
    resolveSnapshotPost catalog now scl cn card = none := by
  cases card with
  | none => simpa [resolveSnapshotPost] using hcat
  | some c =>
      simp only [needsLiveLookup] at hlook
      simp [resolveSnapshotPost, resolveSnapshotPatch, hlook, hcat]

/-- C7: when the external source would be consulted and returns nothing
(`fetchScryfallCard` yields `null`), both the create and the update
operation abort with an error response — the `scryfallData.finishes`
dereference of `null` lands in the 500 handler — and nothing is merged or
written: the store comes back unchanged. -/
theorem catalogUnavailableAborts
    (catalog : String → String → Option Scryfall) (now : Nat)
    (setCode cardNumber : String) (changes : List PendingChange) (s : Store)
    (hcat : catalog (toLowerStr setCode) cardNumber = none)
    (hlook : needsLiveLookup (storeGet s (getKey setCode cardNumber)) now
        = true) :
    post catalog now setCode cardNumber (some changes) s =
        (.error 500 "DynamoDB error", s) ∧
      (∀ card, storeGet s (getKey setCode cardNumber) = some card →
        isScryfallExpired card now = true → changes ≠ [] →
        patch catalog now setCode cardNumber (some changes) s =
          (.error 500 "DynamoDB error", s)) := by
  constructor
  · have hres := resolveSnapshotPost_none_of_unavailable catalog now
      (toLowerStr setCode) cardNumber (storeGet s (getKey setCode cardNumber))
      hcat hlook
    rw [post_some]
    unfold postCore
    simp only [hres]
  · intro card hsg hexp hne
    have hres : resolveSnapshotPatch catalog now (toLowerStr setCode)
        cardNumber card = none := by
      simp [resolveSnapshotPatch, hexp, hcat]
    have hne2 : changes.isEmpty = false := by simpa using hne
    rw [patch_some]
    unfold patchCore
    simp only [hne2, hsg, hres, Bool.false_eq_true, if_false]

/-- Concrete instantiation of `catalogUnavailableAborts`: a create on an
absent key and an update on an expired record, with the catalog down,
both answer 500 and leave the store as it was. -/
theorem catalogUnavailableAborts_witness :
    post (fun _ _ => none) 0 "abc" "7"
        (some [⟨"nonfoil", 2, none⟩]) [] =
      (.error 500 "DynamoDB error", []) ∧
    patch (fun _ _ => none) 999 "abc" "7" (some [⟨"nonfoil", 2, none⟩])
        [⟨"abc:7", [⟨"nonfoil", 1, ""⟩], some ⟨some ["nonfoil"], "sf"⟩,
          some 10, []⟩] =
      (.error 500 "DynamoDB error",
        [⟨"abc:7", [⟨"nonfoil", 1, ""⟩], some ⟨some ["nonfoil"], "sf"⟩,
          some 10, []⟩]) :=
  ⟨(catalogUnavailableAborts (fun _ _ => none) 0 "abc" "7"
      [⟨"nonfoil", 2, none⟩] [] rfl (by decide)).1,
    (catalogUnavailableAborts (fun _ _ => none) 999 "abc" "7"
        [⟨"nonfoil", 2, none⟩]
        [⟨"abc:7", [⟨"nonfoil", 1, ""⟩], some ⟨some ["nonfoil"], "sf"⟩,
          some 10, []⟩] rfl (by decide)).2
      ⟨"abc:7", [⟨"nonfoil", 1, ""⟩], some ⟨some ["nonfoil"], "sf"⟩,
        some 10, []⟩ (by decide) (by decide) (by simp)⟩

/-! ## Inversion lemmas for successful writes -/

theorem post_201_inv (catalog : String → String → Option Scryfall)
    (now : Nat) (setCode cardNumber : String)
    (body : Option (List PendingChange)) (s : Store) (st : Nat) (c : Card)
    (s2 : Store)
    (h : post catalog now setCode cardNumber body s = (.jsonCard st c, s2)) :
    st = 201 ∧ c.cardId = getKey setCode cardNumber ∧
      c.scryfall_ttl = some (now + scryfallTtlMs) ∧ c.extra = [] ∧
      s2 = storePut s c := by
  unfold post at h
  split at h
  · simp at h
  · unfold postCore at h
    split at h
    · simp at h
    · split at h
      · simp at h
      · simp only [Prod.mk.injEq, Outcome.jsonCard.injEq] at h
        obtain ⟨⟨hst, hc⟩, hs2⟩ := h
        subst hc
        exact ⟨hst.symm, rfl, rfl, rfl, hs2.symm⟩

theorem patch_200_inv (catalog : String → String → Option Scryfall)
    (now : Nat) (setCode cardNumber : String) (changes : List PendingChange)
    (s : Store) (st : Nat) (c : Card) (s2 : Store)
    (h : patch catalog now setCode cardNumber (some changes) s =
      (.jsonCard st c, s2)) :
    st = 200 ∧ c.cardId = getKey setCode cardNumber ∧
      c.scryfall_ttl = some (now + scryfallTtlMs) ∧ s2 = storePut s c ∧
      ∃ card, storeGet s (getKey setCode cardNumber) = some card ∧
        c.extra = card.extra ∧
        c.finishes = patchUpdated card.finishes changes now ∧
        c.finishes.isEmpty = false := by
  rw [patch_some] at h
  unfold patchCore at h
  split at h
  · simp at h
  · split at h
    · simp at h
    · rename_i card hsg
      split at h
      · simp at h
      · split at h
        · simp at h
        · simp at h
        · split at h
          · simp at h
          · rename_i hne
            simp only [Prod.mk.injEq, Outcome.jsonCard.injEq] at h
            obtain ⟨⟨hst, hc⟩, hs2⟩ := h
            subst hc
            refine ⟨hst.symm, ?_, rfl, hs2.symm,
              card, hsg, rfl, rfl, ?_⟩
            · show card.cardId = getKey setCode cardNumber
              exact cardId_of_storeGet hsg
            · simpa using hne

theorem patch_204_inv (catalog : String → String → Option Scryfall)
    (now : Nat) (setCode cardNumber : String)
    (body : Option (List PendingChange)) (s : Store) (st : Nat) (s2 : Store)
    (h : patch catalog now setCode cardNumber body s = (.empty st, s2)) :
    st = 204 ∧ s2 = storeDelete s (getKey setCode cardNumber) := by
  unfold patch at h
  split at h
  · simp at h
  · unfold patchCore at h
    split at h
    · simp at h
    · split at h
      · simp at h
      · split at h
        · simp at h
        · split at h
          · simp at h
          · simp at h
          · split at h
            · simp only [Prod.mk.injEq, Outcome.empty.injEq] at h
              exact ⟨h.1.symm, h.2.symm⟩
            · simp at h

/-! ## C10: write-back always refreshes the TTL; POST rebuilds the item -/

/-- C10: a successful POST answers with (and persists) a card rebuilt from
only the four written fields — `extra` is dropped — with
`scryfall_ttl = now + 24h`; a successful non-deleting PATCH persists the
card it returns with `scryfall_ttl = now + 24h` (keeping its other
fields).  Both hold in every case, including when the snapshot came
unchanged from the cache. -/
theorem successRefreshesTtlAndRebuilds
    (catalog : String → String → Option Scryfall) (now : Nat)
    (setCode cardNumber : String) (body : Option (List PendingChange))
    (s : Store) :
    (∀ st c, (post catalog now setCode cardNumber body s).1 =
          .jsonCard st c →
        c.scryfall_ttl = some (now + scryfallTtlMs) ∧ c.extra = [] ∧
          c.cardId = getKey setCode cardNumber ∧
          storeGet (post catalog now setCode cardNumber body s).2
              (getKey setCode cardNumber) = some c) ∧
      (∀ st c changes, body = some changes →
        (patch catalog now setCode cardNumber body s).1 = .jsonCard st c →
        c.scryfall_ttl = some (now + scryfallTtlMs) ∧
          storeGet (patch catalog now setCode cardNumber body s).2
              (getKey setCode cardNumber) = some c) := by
  constructor
  · intro st c hc
    rcases hp : post catalog now setCode cardNumber body s with ⟨o, s2⟩
    rw [hp] at hc
    replace hc : o = .jsonCard st c := hc
    subst hc
    obtain ⟨hst, hid, httl, hex, hs2⟩ :=
      post_201_inv catalog now setCode cardNumber body s st c s2 hp
    refine ⟨httl, hex, hid, ?_⟩
    show storeGet s2 (getKey setCode cardNumber) = some c
    rw [hs2, ← hid]
    exact storeGet_storePut_self s c
  · intro st c changes hbody hc
    subst hbody
    rcases hp : patch catalog now setCode cardNumber (some changes) s with ⟨o, s2⟩
    rw [hp] at hc
    replace hc : o = .jsonCard st c := hc
    subst hc
    obtain ⟨hst, hid, httl, hs2, -⟩ :=
      patch_200_inv catalog now setCode cardNumber changes s st c s2 hp
    refine ⟨httl, ?_⟩
    show storeGet s2 (getKey setCode cardNumber) = some c
    rw [hs2, ← hid]
    exact storeGet_storePut_self s c

/-- Concrete instantiation of `successRefreshesTtlAndRebuilds`: a POST on
an existing fresh record that carries an extra attribute persists a
rebuilt item without the attribute and with ttl `now + 24h` (no live
lookup happened), and a PATCH on the same record persists the card it
returns, ttl refreshed likewise. -/
theorem successRefreshesTtlAndRebuilds_witness :
    ((⟨"abc:1", [⟨"nonfoil", 3, ""⟩], some ⟨some ["nonfoil"], "sf"⟩,
          some (999 + scryfallTtlMs), []⟩ : Card).scryfall_ttl =
        some (999 + scryfallTtlMs) ∧
      (⟨"abc:1", [⟨"nonfoil", 3, ""⟩], some ⟨some ["nonfoil"], "sf"⟩,
          some (999 + scryfallTtlMs), []⟩ : Card).extra = [] ∧
      (⟨"abc:1", [⟨"nonfoil", 3, ""⟩], some ⟨some ["nonfoil"], "sf"⟩,
          some (999 + scryfallTtlMs), []⟩ : Card).cardId = getKey "abc" "1" ∧
      storeGet
          (post (fun _ _ => some ⟨some ["nonfoil"], "x"⟩) 999 "abc" "1"
            (some [⟨"nonfoil", 2, none⟩])
            [⟨"abc:1", [⟨"nonfoil", 1, ""⟩], some ⟨some ["nonfoil"], "sf"⟩,
              some 2000000000, [("origin", "import")]⟩]).2
          (getKey "abc" "1") =
        some ⟨"abc:1", [⟨"nonfoil", 3, ""⟩], some ⟨some ["nonfoil"], "sf"⟩,
          some (999 + scryfallTtlMs), []⟩) ∧
    ((⟨"abc:1", [⟨"nonfoil", 4, ""⟩], some ⟨some ["nonfoil"], "sf"⟩,
          some (999 + scryfallTtlMs), [("origin", "import")]⟩ : Card).scryfall_ttl =
        some (999 + scryfallTtlMs) ∧
      storeGet
          (patch (fun _ _ => some ⟨some ["nonfoil"], "x"⟩) 999 "abc" "1"
            (some [⟨"nonfoil", 4, none⟩])
            [⟨"abc:1", [⟨"nonfoil", 1, ""⟩], some ⟨some ["nonfoil"], "sf"⟩,
              some 2000000000, [("origin", "import")]⟩]).2
          (getKey "abc" "1") =
        some ⟨"abc:1", [⟨"nonfoil", 4, ""⟩], some ⟨some ["nonfoil"], "sf"⟩,
          some (999 + scryfallTtlMs), [("origin", "import")]⟩) :=
  ⟨(successRefreshesTtlAndRebuilds (fun _ _ => some ⟨some ["nonfoil"], "x"⟩)
        999 "abc" "1" (some [⟨"nonfoil", 2, none⟩])
        [⟨"abc:1", [⟨"nonfoil", 1, ""⟩], some ⟨some ["nonfoil"], "sf"⟩,
          some 2000000000, [("origin", "import")]⟩]).1 201
      ⟨"abc:1", [⟨"nonfoil", 3, ""⟩], some ⟨some ["nonfoil"], "sf"⟩,
        some (999 + scryfallTtlMs), []⟩ (by decide),
    (successRefreshesTtlAndRebuilds (fun _ _ => some ⟨some ["nonfoil"], "x"⟩)
        999 "abc" "1" (some [⟨"nonfoil", 4, none⟩])
        [⟨"abc:1", [⟨"nonfoil", 1, ""⟩], some ⟨some ["nonfoil"], "sf"⟩,
          some 2000000000, [("origin", "import")]⟩]).2 200
      ⟨"abc:1", [⟨"nonfoil", 4, ""⟩], some ⟨some ["nonfoil"], "sf"⟩,
        some (999 + scryfallTtlMs), [("origin", "import")]⟩
      [⟨"nonfoil", 4, none⟩] rfl (by decide)⟩

/-! ## C6: validation gate — invalid finish rejects the whole request -/

theorem firstInvalidFinish_some_of_bad (valid : List String)
    (changes : List PendingChange)
    (h : ∃ p ∈ changes, valid.contains p.finish = false) :
    ∃ name, firstInvalidFinish valid changes = some name := by
  rcases h with ⟨p, hp, hbad⟩
  have hsome :
      (changes.find?
          (fun q => q.finish == "" || !(valid.contains q.finish))).isSome = true := by
    rw [List.find?_isSome]
    refine ⟨p, hp, ?_⟩
    show (p.finish == "" || !(valid.contains p.finish)) = true
    rw [hbad, Bool.not_false, Bool.or_true]
  rcases Option.isSome_iff_exists.mp hsome with ⟨q, hq⟩
  refine ⟨q.finish, ?_⟩
  unfold firstInvalidFinish
  rw [hq]
  rfl

theorem validatePatchChanges_cons (valid : List String) (p : PendingChange)
    (rest : List PendingChange) :
    validatePatchChanges valid (p :: rest) =
      if p.finish == "" || !(valid.contains p.finish) then
        some (.unknownFinish p.finish)
      else if p.amount < 0 then
        some (.invalidAmount p.finish)
      else validatePatchChanges valid rest := rfl

theorem validatePatchChanges_some_of_bad (valid : List String) :
    ∀ changes : List PendingChange,
      (∃ p ∈ changes, valid.contains p.finish = false) →
      ∃ e, validatePatchChanges valid changes = some e
  | [], h => by
      rcases h with ⟨p, hp, -⟩
      cases hp
  | p :: rest, h => by
      by_cases hb : (p.finish == "" || !(valid.contains p.finish)) = true
      · exact ⟨.unknownFinish p.finish,
          by rw [validatePatchChanges_cons, if_pos hb]⟩
      · by_cases ha : p.amount < 0
        · exact ⟨.invalidAmount p.finish,
            by rw [validatePatchChanges_cons, if_neg hb, if_pos ha]⟩
        · have hrest : ∃ q ∈ rest, valid.contains q.finish = false := by
            rcases h with ⟨q, hq, hqbad⟩
            rcases List.mem_cons.mp hq with rfl | hq2
            · exact absurd (by rw [hqbad, Bool.not_false, Bool.or_true]) hb
            · exact ⟨q, hq2, hqbad⟩
          obtain ⟨e, he⟩ := validatePatchChanges_some_of_bad valid rest hrest
          exact ⟨e,
            by rw [validatePatchChanges_cons, if_neg hb, if_neg ha]; exact he⟩

/-- C6: a create or update whose change list names a finish absent from
the resolved snapshot's allowed list is answered 400 with the store
wholly unchanged — no partial merge of the other entries happens on
either path. -/
theorem invalidFinishRejectedUnchanged
    (catalog : String → String → Option Scryfall) (now : Nat)
    (setCode cardNumber : String) (changes : List PendingChange) (s : Store)
    (sd : Scryfall)
    (hres : resolveSnapshotPost catalog now (toLowerStr setCode) cardNumber
        (storeGet s (getKey setCode cardNumber)) = some sd)
    (hbad : ∃ p ∈ changes, ((sd.finishes.getD []).contains p.finish) = false) :
    ((post catalog now setCode cardNumber (some changes) s).2 = s ∧
      ∃ msg, (post catalog now setCode cardNumber (some changes) s).1 =
        .error 400 msg) ∧
    (∀ card, storeGet s (getKey setCode cardNumber) = some card →
      (patch catalog now setCode cardNumber (some changes) s).2 = s ∧
      ∃ msg, (patch catalog now setCode cardNumber (some changes) s).1 =
        .error 400 msg) := by
  have hne2 : changes.isEmpty = false := by
    rcases hbad with ⟨p, hp, -⟩
    cases changes with
    | nil => cases hp
    | cons a l => rfl
  constructor
  · obtain ⟨name, hfi⟩ :=
      firstInvalidFinish_some_of_bad (sd.finishes.getD []) changes hbad
    have hpost : post catalog now setCode cardNumber (some changes) s =
        (.error 400 (finishNotExistMsg name (toLowerStr setCode) cardNumber),
          s) := by
      rw [post_some]
      unfold postCore
      simp only [hres, hfi]
    rw [hpost]
    exact ⟨rfl, _, rfl⟩
  · intro card hsg
    have hresp : resolveSnapshotPatch catalog now (toLowerStr setCode)
        cardNumber card = some sd := by
      rw [hsg] at hres
      simpa [resolveSnapshotPost] using hres
    obtain ⟨e, hval⟩ :=
      validatePatchChanges_some_of_bad (sd.finishes.getD []) changes hbad
    cases e with
    | unknownFinish name =>
        have hpatch : patch catalog now setCode cardNumber (some changes) s =
            (.error 400
              (finishNotExistMsg name (toLowerStr setCode) cardNumber), s) := by
          rw [patch_some]
          unfold patchCore
          simp only [hne2, Bool.false_eq_true, if_false, hsg, hresp, hval]
        rw [hpatch]
        exact ⟨rfl, _, rfl⟩
    | invalidAmount name =>
        have hpatch : patch catalog now setCode cardNumber (some changes) s =
            (.error 400 (invalidAmountMsg name), s) := by
          rw [patch_some]
          unfold patchCore
          simp only [hne2, Bool.false_eq_true, if_false, hsg, hresp, hval]
        rw [hpatch]
        exact ⟨rfl, _, rfl⟩

/-- Concrete instantiation of `invalidFinishRejectedUnchanged`: a
two-entry payload whose second finish `etched` is not allowed leaves the
stored record untouched on both paths and answers 400. -/
theorem invalidFinishRejectedUnchanged_witness :
    ((post (fun _ _ => some ⟨some ["nonfoil"], "x"⟩) 999 "abc" "1"
          (some [⟨"nonfoil", 4, none⟩, ⟨"etched", 2, none⟩])
          [⟨"abc:1", [⟨"nonfoil", 1, ""⟩], some ⟨some ["nonfoil"], "sf"⟩,
            some 2000000000, []⟩]).2 =
        [⟨"abc:1", [⟨"nonfoil", 1, ""⟩], some ⟨some ["nonfoil"], "sf"⟩,
          some 2000000000, []⟩] ∧
      ∃ msg,
        (post (fun _ _ => some ⟨some ["nonfoil"], "x"⟩) 999 "abc" "1"
            (some [⟨"nonfoil", 4, none⟩, ⟨"etched", 2, none⟩])
            [⟨"abc:1", [⟨"nonfoil", 1, ""⟩], some ⟨some ["nonfoil"], "sf"⟩,
              some 2000000000, []⟩]).1 = .error 400 msg) ∧
    (∀ card,
      storeGet
          [⟨"abc:1", [⟨"nonfoil", 1, ""⟩], some ⟨some ["nonfoil"], "sf"⟩,
            some 2000000000, []⟩] (getKey "abc" "1") = some card →
      (patch (fun _ _ => some ⟨some ["nonfoil"], "x"⟩) 999 "abc" "1"
          (some [⟨"nonfoil", 4, none⟩, ⟨"etched", 2, none⟩])
          [⟨"abc:1", [⟨"nonfoil", 1, ""⟩], some ⟨some ["nonfoil"], "sf"⟩,
            some 2000000000, []⟩]).2 =
        [⟨"abc:1", [⟨"nonfoil", 1, ""⟩], some ⟨some ["nonfoil"], "sf"⟩,
          some 2000000000, []⟩] ∧
      ∃ msg,
        (patch (fun _ _ => some ⟨some ["nonfoil"], "x"⟩) 999 "abc" "1"
            (some [⟨"nonfoil", 4, none⟩, ⟨"etched", 2, none⟩])
            [⟨"abc:1", [⟨"nonfoil", 1, ""⟩], some ⟨some ["nonfoil"], "sf"⟩,
              some 2000000000, []⟩]).1 = .error 400 msg) :=
  invalidFinishRejectedUnchanged (fun _ _ => some ⟨some ["nonfoil"], "x"⟩)
    999 "abc" "1" [⟨"nonfoil", 4, none⟩, ⟨"etched", 2, none⟩]
    [⟨"abc:1", [⟨"nonfoil", 1, ""⟩], some ⟨some ["nonfoil"], "sf"⟩,
      some 2000000000, []⟩] ⟨some ["nonfoil"], "sf"⟩ (by decide) (by decide)

/-! ## C5: absolute update — zero removes, empty deletes -/

theorem lookupFinish_some_finish {m : List FinishEntry} {name : String}
    {f : FinishEntry} (h : lookupFinish m name = some f) : f.finish = name := by
  unfold lookupFinish at h
  have hp := List.find?_some h
  exact eq_of_beq hp

theorem lookupFinish_none_forall {m : List FinishEntry} {name : String}
    (h : lookupFinish m name = none) :
    ∀ f ∈ m, (f.finish == name) = false := by
  intro f hf
  have hne := List.find?_eq_none.mp h f hf
  simpa using hne

theorem mem_setFinish {m : List FinishEntry} {e g : FinishEntry}
    (h : g ∈ setFinish m e) :
    g = e ∨ (g ∈ m ∧ (g.finish == e.finish) = false) := by
  unfold setFinish at h
  split at h
  · rcases List.mem_map.mp h with ⟨f, hf, heq⟩
    by_cases hc : (f.finish == e.finish) = true
    · rw [if_pos hc] at heq
      exact Or.inl heq.symm
    · rw [if_neg hc] at heq
      subst heq
      exact Or.inr ⟨hf, by simpa using hc⟩
  · rename_i hany
    rcases List.mem_append.mp h with hg | hg
    · refine Or.inr ⟨hg, ?_⟩
      cases hb : (g.finish == e.finish) with
      | false => rfl
      | true => exact absurd (List.any_eq_true.mpr ⟨g, hg, hb⟩) hany
    · exact Or.inl (List.mem_singleton.mp hg)

/-- After folding ABSOLUTE changes over a state, every entry named `name`
has amount 0, provided every submitted change for `name` sets 0 and
either `name` is mentioned or the state already satisfied this. -/
theorem mergeAbsZeroEntries (dt : String) (name : String) :
    ∀ (changes : List PendingChange) (st : List FinishEntry),
      (∀ p ∈ changes, p.finish = name → p.amount = 0) →
      ((∃ p ∈ changes, p.finish = name) ∨
        (∀ f ∈ st, f.finish = name → f.amount = 0)) →
      ∀ f ∈ changes.foldl (applyAbsolute dt) st, f.finish = name →
        f.amount = 0
  | [], st, h1, h2, f, hf, hname => by
      rcases h2 with ⟨p, hp, -⟩ | h2
      · cases hp
      · exact h2 f hf hname
  | p :: rest, st, h1, h2, f, hf, hname => by
      simp only [List.foldl_cons] at hf
      have h1rest : ∀ q ∈ rest, q.finish = name → q.amount = 0 :=
        fun q hq => h1 q (List.mem_cons_of_mem p hq)
      by_cases hp : p.finish = name
      · have hstep : ∀ g ∈ applyAbsolute dt st p, g.finish = name →
            g.amount = 0 := by
          intro g hg hgname
          have hp0 : p.amount = 0 := h1 p (List.mem_cons_self p rest) hp
          unfold applyAbsolute at hg
          rcases hlk : lookupFinish st p.finish with _ | f0
          · rw [hlk] at hg
            rcases List.mem_append.mp hg with hg2 | hg2
            · have := lookupFinish_none_forall hlk g hg2
              rw [hgname, hp] at this
              simp at this
            · rcases List.mem_singleton.mp hg2 with rfl
              exact hp0
          · rw [hlk] at hg
            have hf0 : f0.finish = p.finish := lookupFinish_some_finish hlk
            rcases mem_setFinish hg with rfl | ⟨hg2, hgne⟩
            · exact hp0
            · rw [hgname, hf0, hp] at hgne
              simp at hgne
        exact mergeAbsZeroEntries dt name rest (applyAbsolute dt st p)
          h1rest (Or.inr hstep) f hf hname
      · rcases h2 with ⟨q, hq, hqname⟩ | hst
        · have hqrest : q ∈ rest := by
            rcases List.mem_cons.mp hq with rfl | hq2
            · exact absurd hqname hp
            · exact hq2
          exact mergeAbsZeroEntries dt name rest (applyAbsolute dt st p)
            h1rest (Or.inl ⟨q, hqrest, hqname⟩) f hf hname
        · have hstep : ∀ g ∈ applyAbsolute dt st p, g.finish = name →
              g.amount = 0 := by
            intro g hg hgname
            unfold applyAbsolute at hg
            rcases hlk : lookupFinish st p.finish with _ | f0
            · rw [hlk] at hg
              rcases List.mem_append.mp hg with hg2 | hg2
              · exact hst g hg2 hgname
              · rcases List.mem_singleton.mp hg2 with rfl
                exact absurd hgname hp
            · rw [hlk] at hg
              have hf0 : f0.finish = p.finish := lookupFinish_some_finish hlk
              rcases mem_setFinish hg with rfl | ⟨hg2, -⟩
              · exact absurd (hf0.symm.trans hgname) hp
              · exact hst g hg2 hgname
          exact mergeAbsZeroEntries dt name rest (applyAbsolute dt st p)
            h1rest (Or.inr hstep) f hf hname

/-- A finish whose every submitted change sets amount 0 is absent from
`updatedFinishes` (the merge result after the positivity filter). -/
theorem lookupFinish_patchUpdated_none (ex : List FinishEntry)
    (changes : List PendingChange) (now : Nat) (name : String)
    (hmention : ∃ p ∈ changes, p.finish = name)
    (hzero : ∀ p ∈ changes, p.finish = name → p.amount = 0) :
    lookupFinish (patchUpdated ex changes now) name = none := by
  have hall := mergeAbsZeroEntries (fmtDatetime now) name changes
    (buildFinishMap ex) hzero (Or.inl hmention)
  unfold patchUpdated mergeAbsolute
  unfold lookupFinish
  rw [List.find?_eq_none]
  intro x hx hbeq
  have hxm := List.mem_filter.mp hx
  have h0 : x.amount = 0 := hall x hxm.1 (eq_of_beq hbeq)
  have hpos : (0 : Int) < x.amount := of_decide_eq_true hxm.2
  omega

/-- C5: an ABSOLUTE update answered `204` deleted the record — a `get` on
the resulting store yields 404 NotFound; an update answered `200`
persisted exactly the returned non-empty card, all of whose quantities
are positive, and any finish whose submitted changes all set amount 0 is
gone from it. -/
theorem patchAbsoluteLifecycle
    (catalog : String → String → Option Scryfall) (now : Nat)
    (setCode cardNumber : String) (changes : List PendingChange)
    (s : Store) :
    (∀ st s2, patch catalog now setCode cardNumber (some changes) s =
          (.empty st, s2) →
        st = 204 ∧ storeGet s2 (getKey setCode cardNumber) = none ∧
          getCard catalog now setCode cardNumber s2 =
            (.error 404 "Card not found", s2)) ∧
      (∀ st c s2, patch catalog now setCode cardNumber (some changes) s =
          (.jsonCard st c, s2) →
        st = 200 ∧ storeGet s2 (getKey setCode cardNumber) = some c ∧
          c.finishes ≠ [] ∧ (∀ f ∈ c.finishes, (0 : Int) < f.amount) ∧
          (∀ name, (∃ p ∈ changes, p.finish = name) →
            (∀ p ∈ changes, p.finish = name → p.amount = 0) →
            lookupFinish c.finishes name = none)) := by
  constructor
  · intro st s2 hp
    obtain ⟨hst, hs2⟩ :=
      patch_204_inv catalog now setCode cardNumber (some changes) s st s2 hp
    subst hs2
    have hnone := storeGet_storeDelete_self s (getKey setCode cardNumber)
    refine ⟨hst, hnone, ?_⟩
    unfold getCard
    rw [hnone]
  · intro st c s2 hp
    obtain ⟨hst, hid, httl, hs2, card, hsg, hex, hfin, hne⟩ :=
      patch_200_inv catalog now setCode cardNumber changes s st c s2 hp
    subst hs2
    refine ⟨hst, ?_, ?_, ?_, ?_⟩
    · rw [← hid]
      exact storeGet_storePut_self s c
    · intro hnil
      rw [hnil] at hne
      simp at hne
    · intro f hf
      rw [hfin] at hf
      unfold patchUpdated at hf
      have hmem := List.mem_filter.mp hf
      exact of_decide_eq_true hmem.2
    · intro name hmention hzero
      rw [hfin]
      exact lookupFinish_patchUpdated_none card.finishes changes now name
        hmention hzero

/-- Concrete instantiation of `patchAbsoluteLifecycle`: setting the only
finish to 0 deletes the record (404 on the follow-up get); setting it to
4 persists the returned card. -/
theorem patchAbsoluteLifecycle_witness :
    (204 = 204 ∧
      storeGet ([] : Store) (getKey "abc" "1") = none ∧
      getCard (fun _ _ => some ⟨some ["nonfoil"], "x"⟩) 999 "abc" "1" [] =
        (.error 404 "Card not found", [])) ∧
    (200 = 200 ∧
      storeGet
          [⟨"abc:1", [⟨"nonfoil", 4, ""⟩], some ⟨some ["nonfoil"], "sf"⟩,
            some (999 + scryfallTtlMs), []⟩] (getKey "abc" "1") =
        some ⟨"abc:1", [⟨"nonfoil", 4, ""⟩], some ⟨some ["nonfoil"], "sf"⟩,
          some (999 + scryfallTtlMs), []⟩ ∧
      ([⟨"nonfoil", 4, ""⟩] : List FinishEntry) ≠ [] ∧
      (∀ f ∈ ([⟨"nonfoil", 4, ""⟩] : List FinishEntry), (0 : Int) < f.amount) ∧
      (∀ name, (∃ p ∈ [(⟨"nonfoil", 4, none⟩ : PendingChange)], p.finish = name) →
        (∀ p ∈ [(⟨"nonfoil", 4, none⟩ : PendingChange)], p.finish = name →
          p.amount = 0) →
        lookupFinish [⟨"nonfoil", 4, ""⟩] name = none)) :=
  ⟨(patchAbsoluteLifecycle (fun _ _ => some ⟨some ["nonfoil"], "x"⟩) 999
        "abc" "1" [⟨"nonfoil", 0, none⟩]
        [⟨"abc:1", [⟨"nonfoil", 1, ""⟩], some ⟨some ["nonfoil"], "sf"⟩,
          some 2000000000, []⟩]).1 204 [] (by decide),
    (patchAbsoluteLifecycle (fun _ _ => some ⟨some ["nonfoil"], "x"⟩) 999
        "abc" "1" [⟨"nonfoil", 4, none⟩]
        [⟨"abc:1", [⟨"nonfoil", 1, ""⟩], some ⟨some ["nonfoil"], "sf"⟩,
          some 2000000000, []⟩]).2 200
      ⟨"abc:1", [⟨"nonfoil", 4, ""⟩], some ⟨some ["nonfoil"], "sf"⟩,
        some (999 + scryfallTtlMs), []⟩
      [⟨"abc:1", [⟨"nonfoil", 4, ""⟩], some ⟨some ["nonfoil"], "sf"⟩,
        some (999 + scryfallTtlMs), []⟩] (by decide)⟩

/-! ## C9: additive correctness and frame of the ADDITIVE merge -/

theorem find?_setFinish_map (e : FinishEntry) (other : String)
    (hne : (e.finish == other) = false) :
    ∀ m : List FinishEntry,
      List.find? (fun f => f.finish == other)
          (m.map (fun f => if f.finish == e.finish then e else f)) =
        List.find? (fun f => f.finish == other) m
  | [] => rfl
  | d :: t => by
      by_cases hc : (d.finish == e.finish) = true
      · have hd : d.finish = e.finish := eq_of_beq hc
        have hdo : (d.finish == other) = false := by rw [hd]; exact hne
        rw [List.map_cons, if_pos hc,
          List.find?_cons_of_neg _ (by simp [hne]),
          List.find?_cons_of_neg _ (by simp [hdo])]
        exact find?_setFinish_map e other hne t
      · rw [List.map_cons, if_neg hc]
        cases hdo : (d.finish == other) with
        | true =>
            rw [List.find?_cons_of_pos _ (by simp [hdo]),
              List.find?_cons_of_pos _ (by simp [hdo])]
        | false =>
            rw [List.find?_cons_of_neg _ (by simp [hdo]),
              List.find?_cons_of_neg _ (by simp [hdo])]
            exact find?_setFinish_map e other hne t

theorem lookupFinish_setFinish_ne (m : List FinishEntry) (e : FinishEntry)
    (other : String) (hne : (e.finish == other) = false) :
    lookupFinish (setFinish m e) other = lookupFinish m other := by
  unfold setFinish lookupFinish
  split
  · exact find?_setFinish_map e other hne m
  · rw [List.find?_append]
    have hsingle : List.find? (fun f => f.finish == other) [e] = none := by
      rw [List.find?_cons_of_neg _ (by simp [hne])]
      rfl
    rw [hsingle]
    cases List.find? (fun f => f.finish == other) m <;> rfl

theorem lookupFinish_applyAdditive_ne (dt : String) (st : List FinishEntry)
    (p : PendingChange) (other : String)
    (h : (p.finish == other) = false) :
    lookupFinish (applyAdditive dt st p) other = lookupFinish st other := by
  unfold applyAdditive
  rcases hlk : lookupFinish st p.finish with _ | f0
  · unfold lookupFinish
    rw [List.find?_append]
    have hnew : List.find? (fun f => f.finish == other)
        ([⟨p.finish, p.amount, initNotes p.notes dt⟩] : List FinishEntry) =
          none := by
      rw [List.find?_cons_of_neg _ (by simp [h])]
      rfl
    rw [hnew]
    cases List.find? (fun f => f.finish == other) st <;> rfl
  · have hf0 : f0.finish = p.finish := lookupFinish_some_finish hlk
    apply lookupFinish_setFinish_ne
    show (f0.finish == other) = false
    rw [hf0]
    exact h

theorem lookupFinish_foldl_additive_unmentioned (dt other : String) :
    ∀ (changes : List PendingChange) (st : List FinishEntry),
      (∀ p ∈ changes, (p.finish == other) = false) →
      lookupFinish (changes.foldl (applyAdditive dt) st) other =
        lookupFinish st other
  | [], st, h => rfl
  | p :: rest, st, h => by
      rw [List.foldl_cons,
        lookupFinish_foldl_additive_unmentioned dt other rest
          (applyAdditive dt st p)
          (fun q hq => h q (List.mem_cons_of_mem p hq))]
      exact lookupFinish_applyAdditive_ne dt st p other
        (h p (List.mem_cons_self p rest))

theorem foldl_setFinish_nodup :
    ∀ (l acc : List FinishEntry),
      (((acc ++ l).map (fun f => f.finish)).Nodup) →
      l.foldl setFinish acc = acc ++ l
  | [], acc, h => by simp
  | e :: t, acc, h => by
      have hdisj := (List.nodup_append.mp (by simpa using h)).2.2
      have hnotin : acc.any (fun f => f.finish == e.finish) = false := by
        cases hany : acc.any (fun f => f.finish == e.finish) with
        | false => rfl
        | true =>
            rcases List.any_eq_true.mp hany with ⟨a, ha, hab⟩
            have hmem1 : e.finish ∈ acc.map (fun f => f.finish) :=
              List.mem_map.mpr ⟨a, ha, eq_of_beq hab⟩
            have hmem2 : e.finish ∈ (e :: t).map (fun f => f.finish) :=
              List.mem_map.mpr ⟨e, List.mem_cons_self e t, rfl⟩
            exact absurd hmem2 (hdisj hmem1)
      have hset : setFinish acc e = acc ++ [e] := by
        unfold setFinish
        rw [hnotin]
        simp
      rw [List.foldl_cons, hset]
      have hih := foldl_setFinish_nodup t (acc ++ [e])
        (by simpa [List.append_assoc] using h)
      simpa [List.append_assoc] using hih

theorem buildFinishMap_of_nodup (l : List FinishEntry)
    (h : (l.map (fun f => f.finish)).Nodup) : buildFinishMap l = l := by
  unfold buildFinishMap
  simpa using foldl_setFinish_nodup l [] (by simpa using h)

theorem isScryfallExpired_freshTtl (now : Nat) (id : String)
    (fs : List FinishEntry) (snap : Scryfall)
    (ex : List (String × String)) :
    isScryfallExpired ⟨id, fs, some snap, some (now + scryfallTtlMs), ex⟩ now
      = false := by
  simp only [isScryfallExpired]
  rw [Bool.or_eq_false_iff]
  constructor
  · have hne : now + scryfallTtlMs ≠ 0 := by
      unfold scryfallTtlMs
      omega
    simpa using hne
  · have hle : ¬ now > now + scryfallTtlMs := by omega
    simp [hle]

theorem mergeAdditive_single (name : String) (q a : Int) (dt : String) :
    mergeAdditive [⟨name, q, ""⟩] [⟨name, a, none⟩] dt =
      [⟨name, q + a, ""⟩] := by
  simp [mergeAdditive, buildFinishMap, applyAdditive, lookupFinish,
    setFinish, appendNotes, notesTruthy, List.find?]

theorem firstInvalidFinish_single_ok (valid : List String) (name : String)
    (a : Int) (hname : (name == "") = false)
    (hallowed : valid.contains name = true) :
    firstInvalidFinish valid [⟨name, a, none⟩] = none := by
  unfold firstInvalidFinish
  rw [List.find?_cons_of_neg _ ?hcond]
  · rfl
  case hcond =>
    show ¬ ((name == "" || !(valid.contains name)) = true)
    rw [hname, hallowed]
    simp

theorem postCore_create (catalog : String → String → Option Scryfall)
    (now : Nat) (setCode cardNumber name : String) (snap : Scryfall)
    (a : Int) (s : Store)
    (hcat : catalog (toLowerStr setCode) cardNumber = some snap)
    (hname : (name == "") = false)
    (hallowed : (snap.finishes.getD []).contains name = true)
    (hsg : storeGet s (getKey setCode cardNumber) = none) :
    post catalog now setCode cardNumber (some [⟨name, a, none⟩]) s =
      (.jsonCard 201 ⟨getKey setCode cardNumber, [⟨name, a, ""⟩], some snap,
          some (now + scryfallTtlMs), []⟩,
        storePut s ⟨getKey setCode cardNumber, [⟨name, a, ""⟩], some snap,
          some (now + scryfallTtlMs), []⟩) := by
  rw [post_some]
  unfold postCore
  rw [hsg]
  simp only [resolveSnapshotPost, hcat,
    firstInvalidFinish_single_ok (snap.finishes.getD []) name a hname
      hallowed]
  unfold postNewCard
  simp [createFinishes, initNotes, notesTruthy]

theorem postCore_step (catalog : String → String → Option Scryfall)
    (now : Nat) (setCode cardNumber name : String) (snap : Scryfall)
    (a q : Int) (s : Store)
    (hname : (name == "") = false)
    (hallowed : (snap.finishes.getD []).contains name = true)
    (hsg : storeGet s (getKey setCode cardNumber) =
      some ⟨getKey setCode cardNumber, [⟨name, q, ""⟩], some snap,
        some (now + scryfallTtlMs), []⟩) :
    post catalog now setCode cardNumber (some [⟨name, a, none⟩]) s =
      (.jsonCard 201 ⟨getKey setCode cardNumber, [⟨name, q + a, ""⟩],
          some snap, some (now + scryfallTtlMs), []⟩,
        storePut s ⟨getKey setCode cardNumber, [⟨name, q + a, ""⟩],
          some snap, some (now + scryfallTtlMs), []⟩) := by
  rw [post_some]
  unfold postCore
  rw [hsg]
  simp only [resolveSnapshotPost, resolveSnapshotPatch,
    isScryfallExpired_freshTtl, Bool.false_eq_true, if_false,
    firstInvalidFinish_single_ok (snap.finishes.getD []) name a hname
      hallowed]
  unfold postNewCard
  simp [mergeAdditive_single]

theorem postMany_inv (catalog : String → String → Option Scryfall)
    (now : Nat) (setCode cardNumber name : String) (snap : Scryfall)
    (hname : (name == "") = false)
    (hallowed : (snap.finishes.getD []).contains name = true) :
    ∀ (amounts : List Int) (q : Int) (s : Store),
      storeGet s (getKey setCode cardNumber) =
        some ⟨getKey setCode cardNumber, [⟨name, q, ""⟩], some snap,
          some (now + scryfallTtlMs), []⟩ →
      storeGet
          (postMany catalog now setCode cardNumber
            (amounts.map (fun a => [⟨name, a, none⟩])) s)
          (getKey setCode cardNumber) =
        some ⟨getKey setCode cardNumber, [⟨name, q + amounts.sum, ""⟩],
          some snap, some (now + scryfallTtlMs), []⟩
  | [], q, s, hsg => by simpa using hsg
  | a :: t, q, s, hsg => by
      unfold postMany
      rw [List.map_cons, List.foldl_cons,
        postCore_step catalog now setCode cardNumber name snap a q s hname
          hallowed hsg]
      have hih := postMany_inv catalog now setCode cardNumber name snap
        hname hallowed t (q + a)
        (storePut s ⟨getKey setCode cardNumber, [⟨name, q + a, ""⟩],
          some snap, some (now + scryfallTtlMs), []⟩)
        (storeGet_storePut_self s _)
      unfold postMany at hih
      simpa [add_assoc] using hih

/-- C9: starting from an absent record, a sequence of create/increment
requests for one finish leaves exactly that finish with quantity equal to
the sum of all submitted amounts; and an ADDITIVE merge leaves every
finish not mentioned in its pending changes unchanged (looked up in a
duplicate-free record). -/
theorem additiveSumCorrect (catalog : String → String → Option Scryfall)
    (now : Nat) (setCode cardNumber name : String) (snap : Scryfall)
    (amounts : List Int) (s : Store)
    (hcat : catalog (toLowerStr setCode) cardNumber = some snap)
    (hname : (name == "") = false)
    (hallowed : (snap.finishes.getD []).contains name = true)
    (hsg : storeGet s (getKey setCode cardNumber) = none)
    (hne : amounts ≠ []) :
    storeGet
        (postMany catalog now setCode cardNumber
          (amounts.map (fun a => [⟨name, a, none⟩])) s)
        (getKey setCode cardNumber) =
      some ⟨getKey setCode cardNumber, [⟨name, amounts.sum, ""⟩], some snap,
        some (now + scryfallTtlMs), []⟩ ∧
    (∀ (existing : List FinishEntry) (changes : List PendingChange)
        (dt other : String),
      ((existing.map (fun f => f.finish)).Nodup) →
      (∀ p ∈ changes, p.finish ≠ other) →
      lookupFinish (mergeAdditive existing changes dt) other =
        lookupFinish existing other) := by
  constructor
  · cases amounts with
    | nil => exact absurd rfl hne
    | cons a t =>
        unfold postMany
        rw [List.map_cons, List.foldl_cons,
          postCore_create catalog now setCode cardNumber name snap a s hcat
            hname hallowed hsg]
        have hrest := postMany_inv catalog now setCode cardNumber name snap
          hname hallowed t a
          (storePut s ⟨getKey setCode cardNumber, [⟨name, a, ""⟩],
            some snap, some (now + scryfallTtlMs), []⟩)
          (storeGet_storePut_self s _)
        unfold postMany at hrest
        simpa using hrest
  · intro existing changes dt other hnodup hunm
    unfold mergeAdditive
    rw [lookupFinish_foldl_additive_unmentioned dt other changes
      (buildFinishMap existing)
      (fun p hp => beq_eq_false_iff_ne.mpr (hunm p hp)),
      buildFinishMap_of_nodup existing hnodup]

/-- Concrete instantiation of `additiveSumCorrect`: posting amounts 2, 3
and 5 of `foil` onto a fresh key stores quantity 10. -/
theorem additiveSumCorrect_witness :
    storeGet
        (postMany (fun _ _ => some ⟨some ["foil"], "sf"⟩) 999 "abc" "9"
          (([2, 3, 5] : List Int).map
            (fun a => [(⟨"foil", a, none⟩ : PendingChange)])) [])
        (getKey "abc" "9") =
      some ⟨getKey "abc" "9", [⟨"foil", ([2, 3, 5] : List Int).sum, ""⟩],
        some ⟨some ["foil"], "sf"⟩, some (999 + scryfallTtlMs), []⟩ ∧
    (∀ (existing : List FinishEntry) (changes : List PendingChange)
        (dt other : String),
      ((existing.map (fun f => f.finish)).Nodup) →
      (∀ p ∈ changes, p.finish ≠ other) →
      lookupFinish (mergeAdditive existing changes dt) other =
        lookupFinish existing other) :=
  additiveSumCorrect (fun _ _ => some ⟨some ["foil"], "sf"⟩) 999 "abc" "9"
    "foil" ⟨some ["foil"], "sf"⟩ [2, 3, 5] [] rfl (by decide) (by decide)
    (by decide) (by decide)

/-! ## C8: batch ordering, per-operation isolation, unknown kinds -/

theorem applyBatchOp_unknown (catalog : String → String → Option Scryfall)
    (now : Nat) (s : Store) (op : BatchOp)
    (h1 : op.type ≠ "create") (h2 : op.type ≠ "update")
    (h3 : op.type ≠ "delete") :
    applyBatchOp catalog now s op =
      (.unknownOp ("Unknown operation type: " ++ op.type), s) := by
  unfold applyBatchOp
  rw [if_neg (by simpa using h1), if_neg (by simpa using h2),
    if_neg (by simpa using h3)]

theorem processOps_append (catalog : String → String → Option Scryfall)
    (now : Nat) :
    ∀ (l1 l2 : List BatchOp) (s : Store),
      processOps catalog now (l1 ++ l2) s =
        ((processOps catalog now l1 s).1 ++
            (processOps catalog now l2 (processOps catalog now l1 s).2).1,
          (processOps catalog now l2 (processOps catalog now l1 s).2).2)
  | [], l2, s => by simp [processOps]
  | op :: t, l2, s => by
      simp only [List.cons_append, processOps, List.append_eq]
      rw [processOps_append catalog now t l2
        (applyBatchOp catalog now s op).2]

theorem processOps_fields (catalog : String → String → Option Scryfall)
    (now : Nat) :
    ∀ (l : List BatchOp) (s : Store),
      (processOps catalog now l s).1.map
          (fun i => (i.type, i.setcode, i.cardNumber)) =
        l.map (fun o => (o.type, o.setcode, o.cardNumber))
  | [], s => rfl
  | op :: t, s => by
      simp only [processOps, List.map_cons]
      rw [processOps_fields catalog now t (applyBatchOp catalog now s op).2]

/-- C8: a well-formed batch is answered at transport level with status 200
and one result per operation, in submitted order with each result tagged
by its own operation; the loop threads the store strictly left to right
(so no operation is skipped or rolled back by a later failure); and an
operation with an unrecognized kind contributes its UnknownOperation-style
result without touching the store or stopping the remainder. -/
theorem batchOrderIsolation (catalog : String → String → Option Scryfall)
    (now : Nat) (ops : List BatchOp) (s : Store)
    (pre rest : List BatchOp) (bad : BatchOp)
    (h1 : bad.type ≠ "create") (h2 : bad.type ≠ "update")
    (h3 : bad.type ≠ "delete") :
    (∃ items s2, batch catalog now (some ops) s =
        (.results 200 items, s2) ∧
      items.length = ops.length ∧
      items.map (fun i => (i.type, i.setcode, i.cardNumber)) =
        ops.map (fun o => (o.type, o.setcode, o.cardNumber))) ∧
    (∀ (l1 l2 : List BatchOp) (st : Store),
      processOps catalog now (l1 ++ l2) st =
        ((processOps catalog now l1 st).1 ++
            (processOps catalog now l2 (processOps catalog now l1 st).2).1,
          (processOps catalog now l2 (processOps catalog now l1 st).2).2)) ∧
    processOps catalog now (pre ++ bad :: rest) s =
      ((processOps catalog now pre s).1 ++
          ⟨bad.type, bad.setcode, bad.cardNumber,
            .unknownOp ("Unknown operation type: " ++ bad.type)⟩ ::
            (processOps catalog now rest
              (processOps catalog now pre s).2).1,
        (processOps catalog now rest (processOps catalog now pre s).2).2) := by
  refine ⟨?_, ?_, ?_⟩
  · refine ⟨(processOps catalog now ops s).1,
      (processOps catalog now ops s).2, rfl, ?_, processOps_fields catalog
        now ops s⟩
    have hmap := processOps_fields catalog now ops s
    have := congrArg List.length hmap
    simpa using this
  · exact fun l1 l2 st => processOps_append catalog now l1 l2 st
  · rw [processOps_append catalog now pre (bad :: rest) s]
    simp only [processOps,
      applyBatchOp_unknown catalog now (processOps catalog now pre s).2 bad
        h1 h2 h3]

/-- Concrete instantiation of `batchOrderIsolation` at an unrecognized
operation kind `upsert`. -/
theorem batchOrderIsolation_witness :
    (∃ items s2, batch (fun _ _ => none) 0 (some []) [] =
        (.results 200 items, s2) ∧
      items.length = ([] : List BatchOp).length ∧
      items.map (fun i => (i.type, i.setcode, i.cardNumber)) =
        ([] : List BatchOp).map (fun o => (o.type, o.setcode, o.cardNumber))) ∧
    (∀ (l1 l2 : List BatchOp) (st : Store),
      processOps (fun _ _ => none) 0 (l1 ++ l2) st =
        ((processOps (fun _ _ => none) 0 l1 st).1 ++
            (processOps (fun _ _ => none) 0 l2
              (processOps (fun _ _ => none) 0 l1 st).2).1,
          (processOps (fun _ _ => none) 0 l2
            (processOps (fun _ _ => none) 0 l1 st).2).2)) ∧
    processOps (fun _ _ => none) 0
        ([] ++ (⟨"upsert", "abc", "9", none⟩ : BatchOp) :: []) [] =
      ((processOps (fun _ _ => none) 0 [] []).1 ++
          ⟨"upsert", "abc", "9",
            .unknownOp ("Unknown operation type: " ++ "upsert")⟩ ::
            (processOps (fun _ _ => none) 0 []
              (processOps (fun _ _ => none) 0 [] []).2).1,
        (processOps (fun _ _ => none) 0 []
          (processOps (fun _ _ => none) 0 [] []).2).2) :=
  batchOrderIsolation (fun _ _ => none) 0 [] [] [] []
    ⟨"upsert", "abc", "9", none⟩ (by decide) (by decide) (by decide)

end MtgTrades
